import Mathlib

/-!
Verification of the request-queue scheduling core and the two storage
routines of the Ryuuko-Chatbot repository
(`src/packages/bot/src/utils/queue.py`,
`src/packages/bot/src/storage/database.py`), shallowly embedded in Lean.

Timestamps (Python `time.time()` floats) are modelled as rationals; the
opaque `discord.Message` payload is modelled as an abstract numeric handle;
the association-list maps model Python dicts (insertion order preserved,
assignment replaces in place).
-/

namespace Ryuuko

/-- Embeds the dataclass `QueuedRequest` of `queue.py`.  The
`discord.Message` payload is opaque to the queue logic and is modelled by
an abstract handle `message`. -/
structure QueuedRequest where
  message : Nat
  user_id : Int
  is_owner : Bool
  timestamp : ℚ
  final_user_text : String
deriving DecidableEq

/-- Embeds `QueuedRequest.__lt__`: if the two requests differ in
`is_owner`, the owner one is smaller (`return self.is_owner`); otherwise
the earlier timestamp is smaller. -/
def qlt (a b : QueuedRequest) : Bool :=
  if a.is_owner != b.is_owner then a.is_owner
  else decide (a.timestamp < b.timestamp)

/-- The minimum of `b :: l` under `qlt`, scanning left to right (models the
remove-min contract of `asyncio.PriorityQueue`, whose heap pops a minimal
element). -/
def minReq : QueuedRequest → List QueuedRequest → QueuedRequest
  | best, [] => best
  | best, x :: xs => minReq (if qlt x best then x else best) xs

/-- `remove-min` of the priority queue, with the waiting multiset modelled
as a list: returns a minimal element and the rest. -/
def popMin : List QueuedRequest → Option (QueuedRequest × List QueuedRequest)
  | [] => none
  | x :: xs =>
    let m := minReq x xs
    some (m, (x :: xs).erase m)

/-- The drain loop of `RequestQueue.stop` (`while not empty: get_nowait()`)
run with explicit fuel: returns the popped items, in pop order, and the
remaining queue content. -/
def drainLoopFuel : Nat → List QueuedRequest → List QueuedRequest × List QueuedRequest
  | 0, l => ([], l)
  | _ + 1, [] => ([], [])
  | n + 1, x :: xs =>
    let m := minReq x xs
    let r := drainLoopFuel n ((x :: xs).erase m)
    (m :: r.1, r.2)

/-- Mutable state of the `RequestQueue` class: the waiting queue (as a
multiset), `_processing_users`, `_user_last_request`, and whether a live
(not-done) worker task exists. -/
structure RequestQueue where
  queue : List QueuedRequest
  processing_users : List Int
  user_last_request : List (Int × ℚ)
  worker_running : Bool
deriving DecidableEq

/-- Embeds `self._user_last_request.get(user_id, 0)`. -/
def lookupLast (m : List (Int × ℚ)) (u : Int) : ℚ :=
  match m.find? (fun p => p.1 == u) with
  | some p => p.2
  | none => 0

/-- Dict assignment `self._user_last_request[user_id] = t`: replace the
entry in place if present, append otherwise. -/
def setLast (m : List (Int × ℚ)) (u : Int) (t : ℚ) : List (Int × ℚ) :=
  if m.any (fun p => p.1 == u) then
    m.map (fun p => if p.1 == u then (p.1, t) else p)
  else m ++ [(u, t)]

/-- The outcome of `add_request`, which in the code is a pair
`(success, message)`: `accepted` is `(True, None)`; the three rejection
constructors carry the distinguishing content of the three rejection
messages (the rate-limit message interpolates the remaining wait). -/
inductive AddResult where
  | accepted
  | rejectedInService
  | rejectedInQueue
  | rejectedRateLimited (remaining : ℚ)
deriving DecidableEq

/-- The `success` component of the returned pair. -/
def AddResult.isSuccess : AddResult → Bool
  | .accepted => true
  | _ => false

/-- Whether the result is one of the two duplicate-request rejections
(caller already in service, or caller already in queue). -/
def AddResult.isDuplicateRejection : AddResult → Bool
  | .rejectedInService => true
  | .rejectedInQueue => true
  | _ => false

/-- Embeds `RequestQueue.add_request`, with the externally supplied values
made explicit: `author_id = message.author.id`, `author_is_owner` the value
returned by the `is_owner` collaborator, `now = time.time()` captured at
entry.  The drain-and-refill duplicate scan leaves the queue's multiset
unchanged and amounts to a membership test; on admission the request is
inserted and `_user_last_request[user_id] = current_time` runs
unconditionally, and a worker is (re)started. -/
def add_request (st : RequestQueue) (message : Nat) (author_id : Int)
    (author_is_owner : Bool) (now : ℚ) (final_user_text : String) :
    AddResult × RequestQueue :=
  if author_id ∈ st.processing_users then
    (.rejectedInService, st)
  else if st.queue.any (fun r => r.user_id == author_id) then
    (.rejectedInQueue, st)
  else if author_is_owner = false ∧ now - lookupLast st.user_last_request author_id < 3 then
    (.rejectedRateLimited (3 - (now - lookupLast st.user_last_request author_id)), st)
  else
    let req : QueuedRequest :=
      ⟨message, author_id, author_is_owner, now, final_user_text⟩
    (.accepted,
      { st with
        queue := st.queue ++ [req]
        user_last_request := setLast st.user_last_request author_id now
        worker_running := true })

/-- Number of outstanding requests of caller `u`: waiting entries plus the
in-service marker. -/
def outstanding (st : RequestQueue) (u : Int) : Nat :=
  (st.queue.countP (fun r => r.user_id == u)) +
    (if u ∈ st.processing_users then 1 else 0)

/-- Single-flight invariant: every caller has at most one outstanding
request. -/
def singleFlight (st : RequestQueue) : Prop :=
  ∀ u, outstanding st u ≤ 1

/-- Outcome of one invocation of the processing callback inside
`_worker`: it returns normally or raises (the raise is caught by the
`except` clause, which reports the error externally). -/
inductive CallbackOutcome where
  | ok
  | raises
deriving DecidableEq

/-- What the worker loop does after one iteration of the `while True`
body: keep looping, or exit (the latter only on `asyncio.CancelledError`,
delivered at the `queue.get()` suspension point by `stop`). -/
inductive WorkerControl where
  | keepRunning
  | exitLoop
deriving DecidableEq

/-- Models `set.add`. -/
def insertUser (u : Int) (s : List Int) : List Int :=
  if u ∈ s then s else u :: s

/-- Models `set.discard`. -/
def removeUser (u : Int) (s : List Int) : List Int :=
  s.filter (fun x => x != u)

/-- One iteration of the body of `RequestQueue._worker` when the queue is
non-empty: `get` the minimal request, add its user to
`_processing_users`, invoke the callback inside `try`, on a raise run the
`except` handler (external error report), and in `finally` discard the
user; both outcomes fall through to the next iteration. -/
def workerIteration (st : RequestQueue) (outcome : CallbackOutcome) :
    RequestQueue × WorkerControl :=
  match popMin st.queue with
  | none => (st, .keepRunning)
  | some (req, rest) =>
    let marked : RequestQueue :=
      { st with queue := rest
                processing_users := insertUser req.user_id st.processing_users }
    let released : RequestQueue :=
      { marked with processing_users := removeUser req.user_id marked.processing_users }
    match outcome with
    | .ok => (released, .keepRunning)
    | .raises => (released, .keepRunning)

/-- Embeds `RequestQueue.stop`: cancel the worker and await it, clear
`_processing_users`, then drain the queue with `get_nowait` until empty.
Returns the new state, the discarded requests (in pop order), and the
list of requests on which the processing callback was invoked during the
drain — the drain calls only `get_nowait`/`task_done`, so that list is
empty. -/
def stop (st : RequestQueue) :
    RequestQueue × List QueuedRequest × List QueuedRequest :=
  let d := drainLoopFuel st.queue.length st.queue
  ({ st with queue := d.2, processing_users := [], worker_running := false },
    d.1, [])

/-- Progress of one in-flight `add_request` coroutine, split at its real
suspension point: `ready` is before the duplicate checks, `checked` is
suspended at `await self.is_owner(...)` (a genuine await — discord.py may
perform a network fetch there) having passed the duplicate checks, and
`finished` carries the returned result. -/
inductive SubmitPhase where
  | ready
  | checked
  | finished (r : AddResult)
deriving DecidableEq

/-- An in-flight `add_request` call: its arguments (with `now` the
`time.time()` value captured at entry and `is_owner` the value the
privilege-check collaborator will return) and its current phase. -/
structure SubmitTask where
  message : Nat
  user_id : Int
  is_owner : Bool
  now : ℚ
  final_user_text : String
  phase : SubmitPhase
deriving DecidableEq

/-- Advance one in-flight `add_request` by one atomic segment of code
(the segments between suspension points run without interleaving under
cooperative scheduling).  `ready → checked` runs the duplicate checks;
`checked → finished` resumes after `await is_owner`, runs the rate check,
and on success performs the mutations. -/
def stepSubmit (st : RequestQueue) (t : SubmitTask) : RequestQueue × SubmitTask :=
  match t.phase with
  | .ready =>
    if t.user_id ∈ st.processing_users then
      (st, { t with phase := .finished .rejectedInService })
    else if st.queue.any (fun r => r.user_id == t.user_id) then
      (st, { t with phase := .finished .rejectedInQueue })
    else
      (st, { t with phase := .checked })
  | .checked =>
    if t.is_owner = false ∧ t.now - lookupLast st.user_last_request t.user_id < 3 then
      let rem : ℚ := 3 - (t.now - lookupLast st.user_last_request t.user_id)
      (st, { t with phase := .finished (.rejectedRateLimited rem) })
    else
      let req : QueuedRequest :=
        ⟨t.message, t.user_id, t.is_owner, t.now, t.final_user_text⟩
      ({ st with
          queue := st.queue ++ [req]
          user_last_request := setLast st.user_last_request t.user_id t.now
          worker_running := true },
        { t with phase := .finished .accepted })
  | .finished _ => (st, t)

/-- Run two concurrent `add_request` tasks under an explicit cooperative
schedule: `false` advances the first task, `true` the second. -/
def runSchedule : RequestQueue → SubmitTask × SubmitTask → List Bool →
    RequestQueue × (SubmitTask × SubmitTask)
  | st, ts, [] => (st, ts)
  | st, (ta, tb), false :: rest =>
    let r := stepSubmit st ta
    runSchedule r.1 (r.2, tb) rest
  | st, (ta, tb), true :: rest =>
    let r := stepSubmit st tb
    runSchedule r.1 (ta, r.2) rest

/-- The empty scheduler state (fresh `RequestQueue()`). -/
def emptyQueue : RequestQueue :=
  ⟨[], [], [], false⟩

end Ryuuko

namespace RyuukoDB

/-- A user-config collection restricted to what `deduct_user_credit`
touches: the documents that carry a `credit` field, as an association
list `user_id ↦ credit`. -/
abbrev CreditDB := List (Int × Int)

/-- The stored credit of `u`, `some c` when a document with a credit
field exists. -/
def lookupCredit (db : CreditDB) (u : Int) : Option Int :=
  (List.find? (fun p => p.1 == u) db).map (fun p => p.2)

/-- Embeds the credit component of `get_user_config`, namely
`result.get("credit", 0)`: the stored credit, or 0 when the user has no
document. -/
def getCredit (db : CreditDB) (u : Int) : Int :=
  (lookupCredit db u).getD 0

/-- The `$inc: {credit: -amount}` update applied to the matched document
(no upsert): set `u`'s credit to `c` in place. -/
def setCredit (db : CreditDB) (u : Int) (c : Int) : CreditDB :=
  db.map (fun p => if p.1 == u then (p.1, c) else p)

/-- Embeds `MongoDBStore.deduct_user_credit`: read the current credit via
`get_user_config`; if it is below `amount` return `(False, current)`;
otherwise run `find_one_and_update` filtered on
`{user_id: u, credit: {$gte: amount}}` with `$inc: {credit: -amount}`,
returning the updated document — `(True, new_credit)` on a match,
`(False, current)` when nothing matched. -/
def deduct_user_credit (db : CreditDB) (u : Int) (amount : Int) :
    (Bool × Int) × CreditDB :=
  let current := getCredit db u
  if current < amount then ((false, current), db)
  else
    match lookupCredit db u with
    | some c =>
      if amount ≤ c then ((true, c - amount), setCredit db u (c - amount))
      else ((false, current), db)
    | none => ((false, current), db)

/-- Python's `l[-k:]` as used by `_apply_memory_limits`: for `k ≥ 1` the
last `k` elements, but for `k = 0` the slice is `l[0:]`, the whole
list. -/
def pySliceLastK {α : Type} (l : List α) (k : Nat) : List α :=
  if k = 0 then l else l.drop (l.length - k)

/-- The backwards accumulation loop of `_apply_memory_limits` run over
the reversed list: keep taking messages while the running token total
stays within `maxT`, and `break` at the first message that does not
fit. -/
def takeWithinTokens {α : Type} (tok : α → Nat) (maxT : Nat) :
    List α → Nat → List α
  | [], _ => []
  | x :: xs, cur =>
    if cur + tok x ≤ maxT then x :: takeWithinTokens tok maxT xs (cur + tok x)
    else []

/-- The `total_tokens > max_tokens` trimming branch of
`_apply_memory_limits`: walk from the most recent message backwards,
keep while within budget, stop at the first overflow; the kept messages
retain their original order. -/
def trimToTokenLimit {α : Type} (tok : α → Nat) (maxT : Nat) (l : List α) : List α :=
  (takeWithinTokens tok maxT l.reverse 0).reverse

/-- Embeds `MongoDBStore._apply_memory_limits` with the tokenizer
abstracted as a total per-message token count `tok` (the claim's
"every message's token count is computed successfully" case, with no
fallback-100 path taken). -/
def apply_memory_limits {α : Type} (tok : α → Nat) (messages : List α)
    (max_messages max_tokens : Nat) : List α :=
  if messages.isEmpty then messages
  else
    let m1 := if messages.length > max_messages then pySliceLastK messages max_messages
              else messages
    let total := (m1.map tok).sum
    if total > max_tokens then trimToTokenLimit tok max_tokens m1
    else m1

/-- `s` is a contiguous suffix of `l`. -/
def isSuffixOfL {α : Type} (s l : List α) : Prop :=
  ∃ t, l = t ++ s

end RyuukoDB

namespace Ryuuko

lemma qlt_irrefl (a : QueuedRequest) : qlt a a = false := by
  simp [qlt]

lemma qlt_trans {a b c : QueuedRequest}
    (h1 : qlt a b = true) (h2 : qlt b c = true) : qlt a c = true := by
  cases ha : a.is_owner <;> cases hb : b.is_owner <;> cases hc : c.is_owner <;>
    simp_all [qlt] <;> linarith

lemma qlt_le_lt {y b m : QueuedRequest}
    (h1 : qlt y b = false) (h2 : qlt y m = true) : qlt b m = true := by
  cases hy : y.is_owner <;> cases hb : b.is_owner <;> cases hm : m.is_owner <;>
    simp_all [qlt] <;> linarith

lemma minReq_mem : ∀ (l : List QueuedRequest) (b : QueuedRequest),
    minReq b l ∈ b :: l
  | [], b => by simp [minReq]
  | y :: ys, b => by
    simp only [minReq]
    by_cases hc : qlt y b = true
    · rw [if_pos hc]
      have h := minReq_mem ys y
      rw [List.mem_cons] at h
      rcases h with h | h
      · rw [h]; simp
      · exact List.mem_cons_of_mem _ (List.mem_cons_of_mem _ h)
    · rw [if_neg hc]
      have h := minReq_mem ys b
      rw [List.mem_cons] at h
      rcases h with h | h
      · rw [h]; simp
      · exact List.mem_cons_of_mem _ (List.mem_cons_of_mem _ h)

lemma minReq_min : ∀ (l : List QueuedRequest) (b x : QueuedRequest),
    x ∈ b :: l → qlt x (minReq b l) = false
  | [], b, x, hx => by
    rw [List.mem_cons] at hx
    rcases hx with rfl | hx
    · simp [minReq, qlt_irrefl]
    · simp at hx
  | y :: ys, b, x, hx => by
    rw [List.mem_cons, List.mem_cons] at hx
    simp only [minReq]
    by_cases hc : qlt y b = true
    · rw [if_pos hc]
      rcases hx with rfl | rfl | hxs
      · -- x = b: b was replaced by the smaller y; use transitivity
        by_contra hbm
        rw [Bool.not_eq_false] at hbm
        have hym : qlt y (minReq y ys) = true := qlt_trans hc hbm
        have hmin := minReq_min ys y y (List.mem_cons_self y ys)
        rw [hmin] at hym
        exact Bool.false_ne_true hym
      · exact minReq_min ys _ _ (List.mem_cons_self _ _)
      · exact minReq_min ys _ _ (List.mem_cons_of_mem _ hxs)
    · rw [if_neg hc]
      have hcf : qlt y b = false := by
        cases h : qlt y b
        · rfl
        · exact absurd h hc
      rcases hx with rfl | rfl | hxs
      · exact minReq_min ys _ _ (List.mem_cons_self _ _)
      · -- x = y: y was rejected against the kept b; use the weak-order step
        by_contra hym
        rw [Bool.not_eq_false] at hym
        have hbm : qlt b (minReq b ys) = true := qlt_le_lt hcf hym
        have hmin := minReq_min ys _ _ (List.mem_cons_self b ys)
        rw [hmin] at hbm
        exact Bool.false_ne_true hbm
      · exact minReq_min ys _ _ (List.mem_cons_of_mem _ hxs)

lemma popMin_minimal {l : List QueuedRequest} {r : QueuedRequest}
    {rest : List QueuedRequest} (h : popMin l = some (r, rest)) :
    ∀ x ∈ l, qlt x r = false := by
  match l with
  | [] => simp [popMin] at h
  | y :: ys =>
    simp only [popMin, Option.some.injEq, Prod.mk.injEq] at h
    intro x hx
    rw [← h.1]
    exact minReq_min ys y x hx

lemma popMin_mem {l : List QueuedRequest} {r : QueuedRequest}
    {rest : List QueuedRequest} (h : popMin l = some (r, rest)) :
    r ∈ l ∧ rest = l.erase r := by
  match l with
  | [] => simp [popMin] at h
  | y :: ys =>
    simp only [popMin, Option.some.injEq, Prod.mk.injEq] at h
    exact ⟨h.1 ▸ minReq_mem ys y, h.2.symm.trans (by rw [h.1])⟩

lemma drainLoop_rem : ∀ (n : Nat) (l : List QueuedRequest), l.length ≤ n →
    (drainLoopFuel n l).2 = []
  | 0, l, h => by
    have hl : l = [] := List.eq_nil_of_length_eq_zero (Nat.le_zero.mp h)
    subst hl
    simp [drainLoopFuel]
  | _ + 1, [], _ => by simp [drainLoopFuel]
  | n + 1, x :: xs, h => by
    simp only [drainLoopFuel]
    apply drainLoop_rem n
    rw [List.length_erase_of_mem (minReq_mem xs x)]
    simp only [List.length_cons] at h ⊢
    omega

lemma drainLoop_perm : ∀ (n : Nat) (l : List QueuedRequest), l.length ≤ n →
    List.Perm (drainLoopFuel n l).1 l
  | 0, l, h => by
    have hl : l = [] := List.eq_nil_of_length_eq_zero (Nat.le_zero.mp h)
    subst hl
    simp [drainLoopFuel]
  | _ + 1, [], _ => by simp [drainLoopFuel]
  | n + 1, x :: xs, h => by
    simp only [drainLoopFuel]
    have hm : minReq x xs ∈ x :: xs := minReq_mem xs x
    have hlen : ((x :: xs).erase (minReq x xs)).length ≤ n := by
      rw [List.length_erase_of_mem hm]
      simp only [List.length_cons] at h ⊢
      omega
    have ih := drainLoop_perm n _ hlen
    exact (ih.cons _).trans (List.perm_cons_erase hm).symm

/-- Request A of the spec's priority-ordering scenario: privileged,
enqueued at t = 0. -/
def reqA : QueuedRequest := ⟨1, 1, true, 0, "A"⟩

/-- Request B of the scenario: ordinary, enqueued at t = 1. -/
def reqB : QueuedRequest := ⟨2, 2, false, 1, "B"⟩

/-- Request C of the scenario: privileged, enqueued at t = 2. -/
def reqC : QueuedRequest := ⟨3, 3, true, 2, "C"⟩

/-- C2: dispatch order over waiting requests.  Any privileged request
sorts strictly before any non-privileged one; within a privilege class an
earlier enqueue timestamp sorts strictly first; whatever `remove-min`
pops is minimal (no waiting request sorts strictly before it); and for
the concrete scenario A (privileged, t=0), B (ordinary, t=1),
C (privileged, t=2), draining the queue yields the order A, C, B. -/
theorem dispatch_priority_order :
    (∀ a b : QueuedRequest, a.is_owner = true → b.is_owner = false →
      qlt a b = true) ∧
    (∀ a b : QueuedRequest, a.is_owner = b.is_owner →
      a.timestamp < b.timestamp → qlt a b = true) ∧
    (∀ (l rest : List QueuedRequest) (r : QueuedRequest),
      popMin l = some (r, rest) → ∀ x ∈ l, qlt x r = false) ∧
    drainLoopFuel 3 [reqA, reqB, reqC] = ([reqA, reqC, reqB], []) := by
  refine ⟨?_, ?_, ?_, by decide⟩
  · intro a b ha hb
    simp [qlt, ha, hb]
  · intro a b hab hts
    simp [qlt, hab, hts]
  · intro l rest r h x hx
    exact popMin_minimal h x hx

/-- Witness for `dispatch_priority_order` at the concrete scenario
requests. -/
theorem dispatch_priority_order_witness :
    qlt reqA reqB = true ∧ qlt reqA reqC = true ∧ qlt reqB reqA = false :=
  ⟨dispatch_priority_order.1 reqA reqB rfl rfl,
   dispatch_priority_order.2.1 reqA reqC rfl (by decide),
   dispatch_priority_order.2.2.1 [reqA, reqB, reqC] [reqB, reqC] reqA
     (by decide) reqB (by decide)⟩

/-- C7: after `stop`, the dispatch queue is empty, the processing set is
empty, the discarded items are exactly the requests that were still
queued (same multiset), and the processing callback is invoked on none
of them during the drain. -/
theorem stop_drains_and_discards (st : RequestQueue) :
    (stop st).1.queue = [] ∧
    (stop st).1.processing_users = [] ∧
    List.Perm (stop st).2.1 st.queue ∧
    (stop st).2.2 = [] := by
  refine ⟨?_, rfl, ?_, rfl⟩
  · exact drainLoop_rem st.queue.length st.queue le_rfl
  · exact drainLoop_perm st.queue.length st.queue le_rfl

/-- C1: if a caller is already in the processing set or already has a
request in the dispatch queue, `add_request` rejects with one of the two
duplicate-request messages and changes nothing; and `add_request`
preserves the single-flight invariant. -/
theorem add_request_single_flight (st : RequestQueue) (msg : Nat) (u : Int)
    (own : Bool) (now : ℚ) (txt : String) :
    ((u ∈ st.processing_users ∨ ∃ r ∈ st.queue, r.user_id = u) →
      ((add_request st msg u own now txt).1.isSuccess = false ∧
       (add_request st msg u own now txt).1.isDuplicateRejection = true ∧
       (add_request st msg u own now txt).2 = st)) ∧
    (singleFlight st → singleFlight (add_request st msg u own now txt).2) := by
  constructor
  · intro hdup
    by_cases hp : u ∈ st.processing_users
    · simp [add_request, hp, AddResult.isSuccess, AddResult.isDuplicateRejection]
    · have hq : st.queue.any (fun r => r.user_id == u) = true := by
        rcases hdup with h | ⟨r, hr, hru⟩
        · exact absurd h hp
        · exact List.any_eq_true.mpr ⟨r, hr, by simp [hru]⟩
      simp [add_request, hp, hq, AddResult.isSuccess, AddResult.isDuplicateRejection]
  · intro hsf
    by_cases hp : u ∈ st.processing_users
    · simpa [add_request, hp] using hsf
    by_cases hq : st.queue.any (fun r => r.user_id == u) = true
    · simpa [add_request, hp, hq] using hsf
    by_cases hrl : own = false ∧ now - lookupLast st.user_last_request u < 3
    · simpa [add_request, hp, hq, hrl] using hsf
    · intro v
      have hout := hsf v
      have hstate : (add_request st msg u own now txt).2 =
          { st with
            queue := st.queue ++ [⟨msg, u, own, now, txt⟩]
            user_last_request := setLast st.user_last_request u now
            worker_running := true } := by
        simp [add_request, hp, hq, hrl]
      rw [hstate]
      simp only [outstanding, List.countP_append] at hout ⊢
      by_cases hv : v = u
      · subst hv
        have h0 : st.queue.countP (fun r => r.user_id == v) = 0 := by
          rw [List.countP_eq_zero]
          intro r hr hru
          rw [Bool.not_eq_true] at hq
          have : st.queue.any (fun r => r.user_id == v) = true :=
            List.any_eq_true.mpr ⟨r, hr, hru⟩
          rw [hq] at this
          exact Bool.false_ne_true this
        simp [h0, hp, List.countP_cons]
      · have h1 : (List.countP (fun r => r.user_id == v)
            [({ message := msg, user_id := u, is_owner := own, timestamp := now,
                final_user_text := txt } : QueuedRequest)]) = 0 := by
          simp [List.countP_cons, Ne.symm hv]
        simp only [h1, Nat.add_zero]
        exact hout

/-- A state in which caller 5 is currently in service. -/
def stDup : RequestQueue := ⟨[], [5], [], false⟩

lemma singleFlight_stDup : singleFlight stDup := by
  intro u
  simp only [outstanding, stDup, List.countP_nil, Nat.zero_add]
  split <;> omega

/-- Witness for `add_request_single_flight`: caller 5 is in service in
`stDup`, so a new submission from caller 5 is rejected as a duplicate and
the state is unchanged; single-flight is preserved. -/
theorem add_request_single_flight_witness :
    ((add_request stDup 1 5 true 0 "x").1.isSuccess = false ∧
     (add_request stDup 1 5 true 0 "x").1.isDuplicateRejection = true ∧
     (add_request stDup 1 5 true 0 "x").2 = stDup) ∧
    outstanding (add_request stDup 1 5 true 0 "x").2 5 ≤ 1 :=
  ⟨(add_request_single_flight stDup 1 5 true 0 "x").1 (Or.inl (by decide)),
   (add_request_single_flight stDup 1 5 true 0 "x").2 singleFlight_stDup 5⟩

/-- C3: for a non-privileged caller whose last-accepted time is `t0` and
who has no outstanding request, a submission strictly inside the
3-second cooldown is rejected carrying the remaining wait, which is
strictly positive, with the state unchanged; a submission at or beyond
the cooldown is accepted. -/
theorem add_request_rate_limited (st : RequestQueue) (msg : Nat) (u : Int)
    (now t0 : ℚ) (txt : String)
    (hp : u ∉ st.processing_users)
    (hq : ∀ r ∈ st.queue, r.user_id ≠ u)
    (hl : lookupLast st.user_last_request u = t0) :
    (now - t0 < 3 →
      (add_request st msg u false now txt).1 =
        .rejectedRateLimited (3 - (now - t0)) ∧
      0 < 3 - (now - t0) ∧
      (add_request st msg u false now txt).2 = st) ∧
    (3 ≤ now - t0 → (add_request st msg u false now txt).1 = .accepted) := by
  have hqa : st.queue.any (fun r => r.user_id == u) = false := by
    rw [List.any_eq_false]
    intro r hr
    simp [hq r hr]
  constructor
  · intro hlt
    refine ⟨?_, by linarith, ?_⟩ <;> simp [add_request, hp, hqa, hl, hlt]
  · intro hge
    have hnl : ¬ (now - lookupLast st.user_last_request u < 3) := by
      rw [hl]
      linarith
    simp [add_request, hp, hqa, hnl]

/-- A state whose caller 8 has last-accepted time 10 and nothing
outstanding. -/
def stRate : RequestQueue := ⟨[], [], [(8, 10)], false⟩

lemma elevenSubTen : (11 : ℚ) - 10 < 3 := by norm_num

lemma thirteenSubTen : (3 : ℚ) ≤ 13 - 10 := by norm_num

/-- Witness for `add_request_rate_limited`: caller 8 resubmitting one
second after acceptance is rejected with 2 seconds remaining; three
seconds after, the submission is accepted. -/
theorem add_request_rate_limited_witness :
    ((add_request stRate 1 8 false 11 "x").1 =
        .rejectedRateLimited (3 - ((11 : ℚ) - 10)) ∧
      0 < 3 - ((11 : ℚ) - 10) ∧
      (add_request stRate 1 8 false 11 "x").2 = stRate) ∧
    (add_request stRate 2 8 false 13 "y").1 = .accepted :=
  ⟨(add_request_rate_limited stRate 1 8 11 10 "x" (by simp [stRate])
      (by simp [stRate]) (by decide)).1 elevenSubTen,
   (add_request_rate_limited stRate 2 8 13 10 "y" (by simp [stRate])
      (by simp [stRate]) (by decide)).2 thirteenSubTen⟩

/-- C4 counterexample: a successful submission by the privileged caller 7
does update the rate-limit table (`_user_last_request[user_id] =
current_time` runs for every accepted request, owner included), so the
table is not unchanged as the claim states. -/
theorem owner_rate_entry_updated :
    (add_request emptyQueue 1 7 true 10 "hi").1 = .accepted ∧
    (add_request emptyQueue 1 7 true 10 "hi").2.user_last_request = [(7, 10)] ∧
    emptyQueue.user_last_request = [] ∧
    (add_request emptyQueue 1 7 true 10 "hi").2.user_last_request ≠
      emptyQueue.user_last_request := by
  decide

/-- C4 (amended): a privileged caller's rate-limit entry is never
consulted — the admission verdict does not depend on the table — and the
table is updated exactly on a successful admission, for every caller,
privileged included, and left unchanged on any rejection. -/
theorem rate_table_consult_update (st : RequestQueue) (m2 : List (Int × ℚ))
    (msg : Nat) (u : Int) (own : Bool) (now : ℚ) (txt : String) :
    ((add_request st msg u true now txt).1 =
      (add_request { st with user_last_request := m2 } msg u true now txt).1) ∧
    ((add_request st msg u own now txt).1 = .accepted →
      (add_request st msg u own now txt).2.user_last_request =
        setLast st.user_last_request u now) ∧
    ((add_request st msg u own now txt).1.isSuccess = false →
      (add_request st msg u own now txt).2.user_last_request =
        st.user_last_request) := by
  refine ⟨?_, ?_, ?_⟩
  · by_cases hp : u ∈ st.processing_users <;>
      by_cases hqq : st.queue.any (fun r => r.user_id == u) = true <;>
        simp [add_request, hp, hqq]
  · by_cases hp : u ∈ st.processing_users
    · simp [add_request, hp]
    · by_cases hqq : st.queue.any (fun r => r.user_id == u) = true
      · simp [add_request, hp, hqq]
      · by_cases hrl : own = false ∧ now - lookupLast st.user_last_request u < 3
        · simp [add_request, hp, hqq, hrl]
        · simp [add_request, hp, hqq, hrl]
  · by_cases hp : u ∈ st.processing_users
    · simp [add_request, hp]
    · by_cases hqq : st.queue.any (fun r => r.user_id == u) = true
      · simp [add_request, hp, hqq]
      · by_cases hrl : own = false ∧ now - lookupLast st.user_last_request u < 3
        · simp [add_request, hp, hqq, hrl]
        · simp [add_request, hp, hqq, hrl, AddResult.isSuccess]

/-- Witness for `rate_table_consult_update`: an accepted owner submission
records the time; a duplicate rejection leaves the table unchanged; the
owner verdict is the same under a different table. -/
theorem rate_table_consult_update_witness :
    (add_request emptyQueue 1 7 true 10 "hi").2.user_last_request =
      setLast emptyQueue.user_last_request 7 10 ∧
    (add_request stDup 1 5 true 0 "x").2.user_last_request =
      stDup.user_last_request ∧
    (add_request emptyQueue 1 7 true 10 "hi").1 =
      (add_request { emptyQueue with user_last_request := [(9, 1)] }
        1 7 true 10 "hi").1 :=
  ⟨(rate_table_consult_update emptyQueue [] 1 7 true 10 "hi").2.1 (by decide),
   (rate_table_consult_update stDup [] 1 5 true 0 "x").2.2 (by decide),
   (rate_table_consult_update emptyQueue [(9, 1)] 1 7 true 10 "hi").1⟩

lemma stepSubmit_uninterleaved (st : RequestQueue) (msg : Nat) (u : Int)
    (own : Bool) (now : ℚ) (txt : String) :
    (stepSubmit (stepSubmit st ⟨msg, u, own, now, txt, .ready⟩).1
        (stepSubmit st ⟨msg, u, own, now, txt, .ready⟩).2) =
      ((add_request st msg u own now txt).2,
       ⟨msg, u, own, now, txt, .finished (add_request st msg u own now txt).1⟩) := by
  by_cases hp : u ∈ st.processing_users
  · simp [stepSubmit, add_request, hp]
  · by_cases hqq : st.queue.any (fun r => r.user_id == u) = true
    · simp [stepSubmit, add_request, hp, hqq]
    · by_cases hrl : own = false ∧ now - lookupLast st.user_last_request u < 3
      · simp [stepSubmit, add_request, hp, hqq, hrl]
      · simp [stepSubmit, add_request, hp, hqq, hrl]

/-- First of two near-simultaneous owner submissions from caller 7. -/
def raceTaskA : SubmitTask := ⟨1, 7, true, 10, "a", .ready⟩

/-- Second of two near-simultaneous owner submissions from caller 7. -/
def raceTaskB : SubmitTask := ⟨2, 7, true, 10, "b", .ready⟩

/-- C5 is violated by the code: `add_request` holds no lock, and
`await self.is_owner(...)` is a real suspension point between the
duplicate checks and the state mutations.  Under the cooperative schedule
that runs both duplicate checks before either mutation, two submissions
from the same caller 7 are both accepted and caller 7 ends with two
outstanding requests, breaking single-flight. -/
theorem interleaved_submits_violate_single_flight :
    (runSchedule emptyQueue (raceTaskA, raceTaskB)
        [false, true, false, true]).2.1.phase = .finished .accepted ∧
    (runSchedule emptyQueue (raceTaskA, raceTaskB)
        [false, true, false, true]).2.2.phase = .finished .accepted ∧
    outstanding (runSchedule emptyQueue (raceTaskA, raceTaskB)
        [false, true, false, true]).1 7 = 2 ∧
    ¬ singleFlight (runSchedule emptyQueue (raceTaskA, raceTaskB)
        [false, true, false, true]).1 := by
  refine ⟨by decide, by decide, by decide, fun h => ?_⟩
  have h7 := h 7
  rw [(by decide : outstanding (runSchedule emptyQueue (raceTaskA, raceTaskB)
        [false, true, false, true]).1 7 = 2)] at h7
  omega

/-- C6: a worker iteration that dispatches a request removes its caller
from the processing set whether the callback returns or raises, keeps the
loop running, and a subsequent `add_request` from that caller (with no
other request of that caller waiting) is not rejected as a duplicate. -/
theorem worker_releases_caller (st : RequestQueue) (req : QueuedRequest)
    (rest : List QueuedRequest) (outcome : CallbackOutcome)
    (hpop : popMin st.queue = some (req, rest))
    (hrest : ∀ r ∈ rest, r.user_id ≠ req.user_id) :
    (workerIteration st outcome).2 = .keepRunning ∧
    req.user_id ∉ (workerIteration st outcome).1.processing_users ∧
    ∀ msg own now txt,
      (add_request (workerIteration st outcome).1 msg req.user_id own
        now txt).1.isDuplicateRejection = false := by
  have hiter : workerIteration st outcome =
      ({ st with
          queue := rest
          processing_users := removeUser req.user_id
            (insertUser req.user_id st.processing_users) }, .keepRunning) := by
    simp only [workerIteration, hpop]
    cases outcome <;> rfl
  rw [hiter]
  have hp : req.user_id ∉
      removeUser req.user_id (insertUser req.user_id st.processing_users) := by
    simp [removeUser, List.mem_filter]
  refine ⟨rfl, hp, ?_⟩
  intro msg own now txt
  have hqa : rest.any (fun r => r.user_id == req.user_id) = false := by
    rw [List.any_eq_false]
    intro r hr
    simp [hrest r hr]
  by_cases hrl : own = false ∧
      now - lookupLast st.user_last_request req.user_id < 3
  · simp [add_request, hp, hqa, hrl, AddResult.isDuplicateRejection]
  · simp [add_request, hp, hqa, hrl, AddResult.isDuplicateRejection]

/-- A state with one waiting request of caller 5 and a running worker. -/
def stWork : RequestQueue := ⟨[⟨1, 5, false, 0, "w"⟩], [], [], true⟩

/-- Witness for `worker_releases_caller`: dispatching caller 5's request
with a raising callback still releases caller 5, keeps the loop going,
and caller 5's next submission is not a duplicate rejection. -/
theorem worker_releases_caller_witness :
    (workerIteration stWork .raises).2 = .keepRunning ∧
    (5 : Int) ∉ (workerIteration stWork .raises).1.processing_users ∧
    (add_request (workerIteration stWork .raises).1 9 5 true 100
      "x").1.isDuplicateRejection = false := by
  have h := worker_releases_caller stWork ⟨1, 5, false, 0, "w"⟩ [] .raises
    (by decide) (by simp)
  exact ⟨h.1, h.2.1, h.2.2 9 true 100 "x"⟩

/-- C8 counterexample: a submission after `stop` is not rejected with a
distinct lifecycle reason — from a stopped scheduler, caller 8's
submission is accepted and the worker task is re-created. -/
theorem submit_after_stop_accepted :
    (stop (add_request emptyQueue 1 7 true 10 "hi").2).1.worker_running
        = false ∧
    (add_request (stop (add_request emptyQueue 1 7 true 10 "hi").2).1
        2 8 true 20 "x").1 = .accepted ∧
    (add_request (stop (add_request emptyQueue 1 7 true 10 "hi").2).1
        2 8 true 20 "x").2.worker_running = true := by
  decide

/-- C8 (amended): `add_request` after `stop` runs the ordinary admission
path — there is no closed flag and no distinct rejection: a privileged
caller, or an ordinary caller past the cooldown, is accepted and the
acceptance restarts the worker. -/
theorem add_request_after_stop (st : RequestQueue) (msg : Nat) (u : Int)
    (own : Bool) (now : ℚ) (txt : String)
    (h : own = true ∨ 3 ≤ now - lookupLast (stop st).1.user_last_request u) :
    (add_request (stop st).1 msg u own now txt).1 = .accepted ∧
    (add_request (stop st).1 msg u own now txt).2.worker_running = true := by
  have hq0 : (stop st).1.queue = [] := drainLoop_rem _ _ le_rfl
  have hp : u ∉ (stop st).1.processing_users := by
    show u ∉ []
    simp
  have hqa : (stop st).1.queue.any (fun r => r.user_id == u) = false := by
    rw [hq0]
    rfl
  have hrl : ¬ (own = false ∧
      now - lookupLast (stop st).1.user_last_request u < 3) := by
    rcases h with h | h
    · rintro ⟨h1, _⟩
      rw [h] at h1
      exact absurd h1 (by simp)
    · rintro ⟨_, h2⟩
      linarith
  constructor <;> simp [add_request, hp, hqa, hrl]

/-- Witness for `add_request_after_stop`: the owner submits to a stopped
fresh scheduler and is accepted, restarting the worker. -/
theorem add_request_after_stop_witness :
    (add_request (stop emptyQueue).1 1 7 true 5 "x").1 = .accepted ∧
    (add_request (stop emptyQueue).1 1 7 true 5 "x").2.worker_running = true :=
  add_request_after_stop emptyQueue 1 7 true 5 "x" (Or.inl rfl)

end Ryuuko

namespace RyuukoDB

lemma takeWithinTokens_initial {α : Type} (tok : α → Nat) (maxT : Nat) :
    ∀ (l : List α) (cur : Nat), ∃ t, l = takeWithinTokens tok maxT l cur ++ t
  | [], _ => ⟨[], rfl⟩
  | x :: xs, cur => by
    simp only [takeWithinTokens]
    by_cases hc : cur + tok x ≤ maxT
    · rw [if_pos hc]
      obtain ⟨t, ht⟩ := takeWithinTokens_initial tok maxT xs (cur + tok x)
      exact ⟨t, by rw [List.cons_append, ← ht]⟩
    · rw [if_neg hc]
      exact ⟨x :: xs, rfl⟩

lemma takeWithinTokens_sum {α : Type} (tok : α → Nat) (maxT : Nat) :
    ∀ (l : List α) (cur : Nat), cur ≤ maxT →
      cur + ((takeWithinTokens tok maxT l cur).map tok).sum ≤ maxT
  | [], cur, h => by simpa [takeWithinTokens] using h
  | x :: xs, cur, h => by
    simp only [takeWithinTokens]
    by_cases hc : cur + tok x ≤ maxT
    · rw [if_pos hc]
      have ih := takeWithinTokens_sum tok maxT xs (cur + tok x) hc
      simp only [List.map_cons, List.sum_cons]
      omega
    · rw [if_neg hc]
      simpa using h

lemma isSuffixOfL_trans {α : Type} {a b c : List α}
    (h1 : isSuffixOfL a b) (h2 : isSuffixOfL b c) : isSuffixOfL a c := by
  obtain ⟨t1, rfl⟩ := h1
  obtain ⟨t2, rfl⟩ := h2
  exact ⟨t2 ++ t1, (List.append_assoc t2 t1 a).symm⟩

lemma isSuffixOfL_length {α : Type} {s l : List α}
    (h : isSuffixOfL s l) : s.length ≤ l.length := by
  obtain ⟨t, rfl⟩ := h
  simp

lemma trimToTokenLimit_suffix {α : Type} (tok : α → Nat) (maxT : Nat)
    (l : List α) : isSuffixOfL (trimToTokenLimit tok maxT l) l := by
  obtain ⟨t, ht⟩ := takeWithinTokens_initial tok maxT l.reverse 0
  refine ⟨t.reverse, ?_⟩
  have h2 : l.reverse.reverse =
      (takeWithinTokens tok maxT l.reverse 0 ++ t).reverse := by
    rw [← ht]
  simpa [List.reverse_append, trimToTokenLimit] using h2

lemma trimToTokenLimit_sum {α : Type} (tok : α → Nat) (maxT : Nat)
    (l : List α) : ((trimToTokenLimit tok maxT l).map tok).sum ≤ maxT := by
  have h := takeWithinTokens_sum tok maxT l.reverse 0 (Nat.zero_le _)
  simp only [Nat.zero_add] at h
  simpa [trimToTokenLimit, List.map_reverse, List.sum_reverse] using h

lemma pySliceLastK_suffix {α : Type} (l : List α) (k : Nat) :
    isSuffixOfL (pySliceLastK l k) l := by
  unfold pySliceLastK
  by_cases hk : k = 0
  · rw [if_pos hk]
    exact ⟨[], rfl⟩
  · rw [if_neg hk]
    exact ⟨l.take (l.length - k), (List.take_append_drop _ l).symm⟩

lemma pySliceLastK_length {α : Type} (l : List α) (k : Nat) (hk : 1 ≤ k) :
    (pySliceLastK l k).length ≤ k := by
  unfold pySliceLastK
  rw [if_neg (by omega)]
  rw [List.length_drop]
  omega

/-- C9 (amended): `_apply_memory_limits` returns a contiguous suffix of
its input whose total token count is at most `max_tokens`; the length
bound `≤ max_messages` holds whenever `max_messages ≥ 1` (for
`max_messages = 0` the slice `messages[-0:]` is the whole list and the
count limit is not applied). -/
theorem apply_memory_limits_spec {α : Type} (tok : α → Nat) (l : List α)
    (mm mt : Nat) :
    isSuffixOfL (apply_memory_limits tok l mm mt) l ∧
    ((apply_memory_limits tok l mm mt).map tok).sum ≤ mt ∧
    (1 ≤ mm → (apply_memory_limits tok l mm mt).length ≤ mm) := by
  simp only [apply_memory_limits]
  by_cases he : l.isEmpty
  · rw [if_pos he]
    have hl : l = [] := by
      cases l
      · rfl
      · simp [List.isEmpty] at he
    refine ⟨⟨[], rfl⟩, ?_, ?_⟩ <;> simp [hl]
  · rw [if_neg he]
    by_cases hlen : l.length > mm
    · rw [if_pos hlen]
      by_cases ht : ((pySliceLastK l mm).map tok).sum > mt
      · rw [if_pos ht]
        refine ⟨isSuffixOfL_trans (trimToTokenLimit_suffix tok mt _)
            (pySliceLastK_suffix l mm), trimToTokenLimit_sum tok mt _,
            fun hmm => ?_⟩
        exact le_trans
          (isSuffixOfL_length (trimToTokenLimit_suffix tok mt _))
          (pySliceLastK_length l mm hmm)
      · rw [if_neg ht]
        exact ⟨pySliceLastK_suffix l mm, by omega,
          fun hmm => pySliceLastK_length l mm hmm⟩
    · rw [if_neg hlen]
      by_cases ht : (l.map tok).sum > mt
      · rw [if_pos ht]
        exact ⟨trimToTokenLimit_suffix tok mt l, trimToTokenLimit_sum tok mt l,
          fun hmm => le_trans
            (isSuffixOfL_length (trimToTokenLimit_suffix tok mt l))
            (by omega)⟩
      · rw [if_neg ht]
        exact ⟨⟨[], rfl⟩, by omega, fun hmm => by omega⟩

/-- Witness for `apply_memory_limits_spec` on a two-message history with
`max_messages = 1`. -/
theorem apply_memory_limits_spec_witness :
    isSuffixOfL (apply_memory_limits (fun n : Nat => n) [2, 5] 1 10) [2, 5] ∧
    ((apply_memory_limits (fun n : Nat => n) [2, 5] 1 10).map
      (fun n : Nat => n)).sum ≤ 10 ∧
    (apply_memory_limits (fun n : Nat => n) [2, 5] 1 10).length ≤ 1 := by
  have h := apply_memory_limits_spec (fun n : Nat => n) [2, 5] 1 10
  exact ⟨h.1, h.2.1, h.2.2 (by decide)⟩

/-- C9 counterexample: with `max_messages = 0` and a one-message input
within the token budget, the function returns the full list — length 1 —
because `messages[-0:]` does not truncate, violating the claimed
`length ≤ max_messages` bound at `max_messages = 0`. -/
theorem memory_limit_zero_count_violated :
    apply_memory_limits (fun n : Nat => n) [5] 0 10 = [5] ∧
    ¬ ((apply_memory_limits (fun n : Nat => n) [5] 0 10).length ≤ 0) := by
  decide

/-- C10: if the current balance is below the requested amount,
`deduct_user_credit` reports failure with the current balance and leaves
the store unchanged; and whenever the store changes at all, the user had
a stored balance of at least the amount and it was decremented by exactly
the amount, with success reported. -/
theorem deduct_user_credit_spec (db : CreditDB) (u amount : Int) :
    (getCredit db u < amount →
      deduct_user_credit db u amount = ((false, getCredit db u), db)) ∧
    ((deduct_user_credit db u amount).2 ≠ db →
      ∃ c, lookupCredit db u = some c ∧ amount ≤ c ∧
        deduct_user_credit db u amount =
          ((true, c - amount), setCredit db u (c - amount))) := by
  constructor
  · intro h
    simp [deduct_user_credit, h]
  · intro hne
    by_cases h : getCredit db u < amount
    · exact absurd (by simp [deduct_user_credit, h]) hne
    · cases hc : lookupCredit db u with
      | none => exact absurd (by simp [deduct_user_credit, h, hc]) hne
      | some c =>
        by_cases hge : amount ≤ c
        · exact ⟨c, rfl, hge, by simp [deduct_user_credit, h, hc, hge]⟩
        · exact absurd (by simp [deduct_user_credit, h, hc, hge]) hne

/-- Witness for `deduct_user_credit_spec`: with a stored balance of 5,
deducting 10 fails and changes nothing, while deducting 3 succeeds and
decrements the stored balance to 2. -/
theorem deduct_user_credit_spec_witness :
    getCredit [(7, 5)] 7 < 10 ∧
    deduct_user_credit [(7, 5)] 7 10 = ((false, getCredit [(7, 5)] 7), [(7, 5)]) ∧
    (∃ c, lookupCredit [(7, 5)] 7 = some c ∧ 3 ≤ c ∧
      deduct_user_credit [(7, 5)] 7 3 =
        ((true, c - 3), setCredit [(7, 5)] 7 (c - 3))) :=
  ⟨by decide, (deduct_user_credit_spec [(7, 5)] 7 10).1 (by decide),
   (deduct_user_credit_spec [(7, 5)] 7 3).2 (by decide)⟩

end RyuukoDB

